import Mathlib

/-!
Verification of the pre-commit lint launcher (`src/lint/launcher.py`).

The Python module is shallowly embedded below.  Pure helpers
(`_build_base_cmd`, `_find_repo_config`, `_parse_text_summary`, the
interpreter-rewrite step of `_run`, the structured-output mapping inside
`lint_with_pre_commit`) become Lean functions.  The effectful orchestrator
`lint_with_pre_commit` becomes a function from an abstract system
environment (filesystem answers, subprocess results, clock readings) to a
result together with a trace of the side effects it performs, in program
order.  Leading underscores of the Python names are dropped.
-/

namespace Precommit

/-- Status literals of the Python model
`Literal["passed", "failed", "skipped", "unknown"]`. -/
inductive HStatus where
  | passed
  | failed
  | skipped
  | unknown
deriving DecidableEq, Repr

/-- JSON values as produced by `json.loads`.  Numbers are modelled as
integers (no claim involves fractional numbers); objects are association
lists with distinct keys, in insertion order. -/
inductive Json where
  | null
  | bool (b : Bool)
  | num (n : Int)
  | str (s : String)
  | arr (items : List Json)
  | obj (fields : List (String × Json))
deriving Repr

/-- Pydantic model `HookResult`; every field keeps its Python default. -/
structure HookResult where
  id : Option String := none
  repo : Option String := none
  rev : Option String := none
  status : HStatus := HStatus.unknown
  files : Option (List String) := none
  raw : Option Json := none
deriving Repr

/-- Pydantic model `LintSummary`.  Field `duration_sec` is an abstract integer
clock difference (the Python float is not otherwise interpreted). -/
structure LintSummary where
  hooks : List HookResult := []
  duration_sec : Int := 0
deriving Repr

/-- Pydantic model `LintResponse`. -/
structure LintResponse where
  ok : Bool
  exit_code : Int
  summary : LintSummary
  stdout : String
  stderr : String
deriving Repr

/-- Pydantic model `LintArgs` (the request). -/
structure LintArgs where
  config_yaml : Option String := none
  repo_path : String
  all_files : Bool := true
  files_to_check : Option (List String) := none
  select_hooks : Option (List String) := none
  show_diff : Bool := true
  relative_virtualenv_path : Option String := none
deriving Repr

/-- Python truthiness of an `str | None` field: `None` and `""` are falsy.
Returns the string when the field is truthy. -/
def pyStrOpt : Option String → Option String
  | none => none
  | some s => if s = "" then none else some s

/-- Python truthiness of a `list[str] | None` field: `None` and `[]` are
falsy. -/
def pyListTruthy : Option (List String) → Bool
  | none => false
  | some [] => false
  | some (_ :: _) => true

/-- Embedding of `_build_base_cmd(cfg_path, req)`: the argument vector for pre-commit.

```
cmd = ["pre-commit", "run", "--config", str(cfg_path)]
if req.show_diff: cmd.append("--show-diff-on-failure")
if req.select_hooks and len(req.select_hooks) == 1: cmd.append(req.select_hooks[0])
if req.all_files and not req.files_to_check: cmd.append("--all-files")
if req.files_to_check: cmd += ["--files", *req.files_to_check]
```
-/
def build_base_cmd (cfg_path : String) (req : LintArgs) : List String :=
  let cmd := ["pre-commit", "run", "--config", cfg_path]
  let cmd := if req.show_diff then cmd ++ ["--show-diff-on-failure"] else cmd
  let cmd :=
    match req.select_hooks with
    | some (h :: rest) => if rest.isEmpty then cmd ++ [h] else cmd
    | _ => cmd
  let cmd :=
    if req.all_files && !(pyListTruthy req.files_to_check) then cmd ++ ["--all-files"]
    else cmd
  match req.files_to_check with
  | some (f :: fs) => cmd ++ ("--files" :: f :: fs)
  | _ => cmd

/-- The interpreter lookup of `_run`: if a virtualenv directory is
configured and exists, take `<venv>/bin/python`; if that file is missing
fall back to `<venv>/Scripts/python.exe`; return the interpreter only when
the chosen file exists.  `pathExists` abstracts `Path.exists()`. -/
def findVenvPython (pathExists : String → Bool) :
    Option String → Option String
  | none => none
  | some venv =>
    if pathExists venv then
      let p1 := venv ++ "/bin/python"
      let venv_python := if pathExists p1 then p1 else venv ++ "/Scripts/python.exe"
      if pathExists venv_python then some venv_python else none
    else none

/-- The argument-vector rewrite of `_run`, applied when an interpreter was
found.  `none` models the `IndexError` Python raises on `cmd[0]` for an
empty vector.

```
if cmd[0] == "pre-commit":
    cmd = [str(venv_python), "-m", "pre_commit"] + cmd[1:]
elif len(cmd) >= 3 and cmd[0] == "python" and cmd[1] == "-m" and cmd[2] == "pre_commit":
    cmd = [str(venv_python), "-m", "pre_commit"] + cmd[3:]
elif len(cmd) >= 2 and cmd[0] == "python" and cmd[1] == "-m":
    cmd = [str(venv_python)] + cmd[1:]
```
-/
def rewriteCmd : Option String → List String → Option (List String)
  | none, cmd => some cmd
  | some _, [] => none
  | some vp, c0 :: rest =>
    if c0 = "pre-commit" then some ([vp, "-m", "pre_commit"] ++ rest)
    else
      match c0 :: rest with
      | "python" :: "-m" :: "pre_commit" :: rest3 =>
          some ([vp, "-m", "pre_commit"] ++ rest3)
      | "python" :: "-m" :: rest2 => some (vp :: "-m" :: rest2)
      | _ => some (c0 :: rest)

/-! ### `_parse_text_summary` -/

/-- ASCII whitespace, the characters that `str.strip` of Python and the regex
classes `\s` / `\S` treat as whitespace (non-ASCII whitespace is not used
by any input of this development). -/
def isPyWs (c : Char) : Bool :=
  c = ' ' || c = '\t' || c = '\n' || c = '\r' || c = '\x0b' || c = '\x0c'

/-- Python `str.strip()` on a character list. -/
def stripChars (l : List Char) : List Char :=
  ((l.dropWhile isPyWs).reverse.dropWhile isPyWs).reverse

/-- One backtracking attempt of
`re.match(r"^(-|\s)*(\S+)\s+\.+\s+(Passed|Failed|Skipped)$", line, re.IGNORECASE)`
once the leading `(-|\s)*` star has consumed a fixed prefix: a non-empty
`\S+` token (greedy, which here is forced to the maximal run because the
following `\s+` cannot start inside it), whitespace, a run of dots,
whitespace, and a status word which must reach the end of the line
(anchor `$`).  Returns `group(2)` and `group(3).lower()`. -/
def tryAt (rest : List Char) : Option (String × String) :=
  let tok := rest.takeWhile (fun c => !(isPyWs c))
  if tok.isEmpty then none else
  let r1 := rest.drop tok.length
  let ws1 := r1.takeWhile isPyWs
  if ws1.isEmpty then none else
  let r2 := r1.drop ws1.length
  let dots := r2.takeWhile (fun c => c = '.')
  if dots.isEmpty then none else
  let r3 := r2.drop dots.length
  let ws2 := r3.takeWhile isPyWs
  if ws2.isEmpty then none else
  let r4 := r3.drop ws2.length
  let low := String.mk (r4.map Char.toLower)
  if low = "passed" || low = "failed" || low = "skipped" then
    some (String.mk tok, low)
  else none

/-- Greedy backtracking over how many characters the leading `(-|\s)*`
star consumes: the maximal run is tried first, then shorter prefixes. -/
def starBacktrack (l : List Char) : Nat → Option (String × String)
  | 0 => tryAt l
  | k + 1 =>
    match tryAt (l.drop (k + 1)) with
    | some r => some r
    | none => starBacktrack l k

/-- The full regex match of `_parse_text_summary` on one stripped line. -/
def matchSummaryLine (l : List Char) : Option (String × String) :=
  starBacktrack l ((l.takeWhile (fun c => c = '-' || isPyWs c)).length)

/-- Stripping `line.strip()` followed by the regex match, giving the hook id and the
lower-cased status word. -/
def lineMatch (line : String) : Option (String × String) :=
  matchSummaryLine (stripChars line.data)

/-- Python `str.splitlines()` for `\n`-separated text (the only line boundary
occurring in this development): no trailing empty line for text ending in
a newline, and `[]` for the empty string. -/
def splitlinesAux : List Char → List Char → List String
  | acc, [] => if acc.isEmpty then [] else [String.mk acc.reverse]
  | acc, c :: rest =>
    if c = '\n' then String.mk acc.reverse :: splitlinesAux [] rest
    else splitlinesAux (c :: acc) rest

/-- Python `out.splitlines()`. -/
def pySplitlines (out : String) : List String :=
  splitlinesAux [] out.data

/-- The `HookResult(id=hook_id, status=...)` built by `_parse_text_summary`
from a matched line; the status word is already lower-cased. -/
def mkTextHook (hookId statusWord : String) : HookResult :=
  { id := some hookId
    status :=
      if statusWord = "passed" then HStatus.passed
      else if statusWord = "failed" then HStatus.failed
      else HStatus.skipped }

/-- Python-dict assignment `results[hook_id] = hr` on an association list:
an existing key keeps its position and gets the new value, a new key is
appended. -/
def dictInsert (m : List (String × HookResult)) (k : String) (v : HookResult) :
    List (String × HookResult) :=
  if m.any (fun p => decide (p.1 = k)) then
    m.map (fun p => if p.1 = k then (k, v) else p)
  else m ++ [(k, v)]

/-- Processing of one line of `_parse_text_summary`. -/
def textStep (m : List (String × HookResult)) (line : String) :
    List (String × HookResult) :=
  match lineMatch line with
  | some (hookId, st) => dictInsert m hookId (mkTextHook hookId st)
  | none => m

/-- Embedding of `_parse_text_summary(out)`: scan the lines, deduplicate into a dict,
return `list(results.values())`. -/
def parse_text_summary (out : String) : List HookResult :=
  ((pySplitlines out).foldl textStep []).map (fun p => p.2)

/-! ### The structured (JSON) stage of the output parser -/

/-- Association-list lookup on a JSON object (`dict.get`; keys of a
decoded object are unique). -/
def jLookup (k : String) : List (String × Json) → Option Json
  | [] => none
  | p :: kvs => if p.1 = k then some p.2 else jLookup k kvs

/-- Lookup `item.get(k)` on a JSON value that is an object; `none` otherwise. -/
def jGet (j : Json) (k : String) : Option Json :=
  match j with
  | Json.obj kvs => jLookup k kvs
  | _ => none

/-- Python truthiness of a decoded JSON value. -/
def jTruthy : Json → Bool
  | Json.null => false
  | Json.bool b => b
  | Json.num n => n != 0
  | Json.str s => s != ""
  | Json.arr items => !items.isEmpty
  | Json.obj kvs => !kvs.isEmpty

/-- Validation of an `str | None` pydantic field fed with
`item.get(name)`: a missing key or JSON `null` is `None`, a JSON string is
accepted, anything else raises a `ValidationError` (modelled `none`). -/
def optStrField (kvs : List (String × Json)) (name : String) :
    Option (Option String) :=
  match jLookup name kvs with
  | none => some none
  | some Json.null => some none
  | some (Json.str s) => some (some s)
  | some _ => none

/-- Field `files=item.get("files") or None` validated as `list[str] | None`:
falsy values become `None`; a truthy value must be a list of strings,
anything else raises (modelled `none`). -/
def filesField (kvs : List (String × Json)) : Option (Option (List String)) :=
  match jLookup "files" kvs with
  | none => some none
  | some v =>
    if jTruthy v then
      match v with
      | Json.arr items =>
        (items.mapM (fun j =>
          match j with
          | Json.str s => some s
          | _ => none)).map (fun l => some l)
      | _ => none
    else some none

/-- The status normalisation of the structured stage:
`"passed" if item.get("status") == "passed" else "failed" if ... else
"skipped" if ... else "unknown"`. -/
def statusOfJson : Option Json → HStatus
  | some (Json.str s) =>
    if s = "passed" then HStatus.passed
    else if s = "failed" then HStatus.failed
    else if s = "skipped" then HStatus.skipped
    else HStatus.unknown
  | _ => HStatus.unknown

/-- Mapping of one record of `payload["results"]` into a `HookResult`.
A non-object record raises (`item.get` on it fails), which the caller
turns into the text fallback; likewise a field that fails validation. -/
def hookOfItem (item : Json) : Option HookResult :=
  match item with
  | Json.obj kvs =>
    match optStrField kvs "hook_id", optStrField kvs "repo",
          optStrField kvs "rev", filesField kvs with
    | some idv, some repov, some revv, some filesv =>
      some { id := idv, repo := repov, rev := revv,
             status := statusOfJson (jLookup "status" kvs),
             files := filesv, raw := some (Json.obj kvs) }
    | _, _, _, _ => none
  | _ => none

/-- The per-item loop, aborting the whole structured stage on the first
exception (the partially built list is discarded by the fallback). -/
def mapOpt (f : α → Option β) : List α → Option (List β)
  | [] => some []
  | a :: l =>
    match f a, mapOpt f l with
    | some b, some bs => some (b :: bs)
    | _, _ => none

/-- The structured stage applied to a decoded payload:
`for item in payload.get("results", []): hooks.append(HookResult(...))`.
`none` models an exception escaping to the text fallback.  Iterating a
non-list value raises unless it is an empty string or empty dict (both
iterate zero times); numbers, booleans and `null` are not iterable. -/
def parseStructured (payload : Json) : Option (List HookResult) :=
  match payload with
  | Json.obj kvs =>
    match jLookup "results" kvs with
    | none => some []
    | some (Json.arr items) => mapOpt hookOfItem items
    | some (Json.str s) => if s = "" then some [] else none
    | some (Json.obj kvs2) => if kvs2.isEmpty then some [] else none
    | some _ => none
  | _ => none

/-! ### The orchestrator `lint_with_pre_commit`

The effectful tool function is embedded as a function from an abstract
system environment to a result (`Except` models a raised Python
exception) paired with the trace of side effects in program order. -/

/-- One observable side effect of `lint_with_pre_commit`. -/
inductive Ev where
  | mkdtemp (path : String)
  | mkdirWork (path : String)
  | copytree (src dst : String)
  | writeConfig (path text : String)
  | runCmd (cmd : List String)
  | rmtree (path : String) (failed : Bool)
deriving DecidableEq, Repr

/-- The abstract system environment one invocation runs against.

* `tmpName` / `cacheName` are the two fresh directory names returned by
  `tempfile.mkdtemp`;
* `resolve` abstracts `Path(p).expanduser().resolve()`;
* `pathExists` answers every `.exists()` query (each path is queried
  before any write that could affect it, except the repository copy, so
  the predicate describes the working copy in its post-copy state);
* `run` gives `(returncode, stdout, stderr)` of a subprocess invocation
  (the environment dict and working directory are not modelled — no claim
  concerns them);
* `jsonLoads` abstracts `json.loads`, `none` meaning it raises;
* `clock` gives the successive readings of `time.time()` (exactly two per
  invocation), as abstract integers;
* `rmtreeFails` says whether removing a directory would fail — suppressed
  by `shutil.rmtree(..., ignore_errors=True)` and recorded in the trace. -/
structure SysEnv where
  tmpName : String
  cacheName : String
  resolve : String → String
  pathExists : String → Bool
  run : List String → Int × String × String
  jsonLoads : String → Option Json
  clock : Nat → Int
  rmtreeFails : String → Bool

/-- The fixed message of the configuration-absence failure. -/
def noConfigMsg : String :=
  "Repository does not have a .pre-commit-config.yaml(.yml) file."

/-- The two-stage output parsing inside `lint_with_pre_commit`: decode
stdout as JSON (an empty/whitespace stdout stands for `{}`), run the
structured stage, and on any exception fall back to
`_parse_text_summary`. -/
def parseStdout (env : SysEnv) (out : String) : List HookResult :=
  let structured : Option (List HookResult) :=
    if String.mk (stripChars out.data) = "" then some []
    else
      match env.jsonLoads out with
      | none => none
      | some payload => parseStructured payload
  match structured with
  | some hooks => hooks
  | none => parse_text_summary out

/-- The trace of `_ensure_git_repo(root, venv)`: when `root/.git` is
missing, run `git init`, `git add -A`, `git commit --allow-empty -m init`
through `_run` (whose rewrite leaves `git` vectors unchanged but is still
consulted). -/
def ensureGitEvents (env : SysEnv) (root : String) (venvPy : Option String) :
    List Ev :=
  if env.pathExists (root ++ "/.git") then []
  else
    [Ev.runCmd ((rewriteCmd venvPy ["git", "init"]).getD []),
     Ev.runCmd ((rewriteCmd venvPy ["git", "add", "-A"]).getD []),
     Ev.runCmd ((rewriteCmd venvPy
       ["git", "commit", "--allow-empty", "-m", "init"]).getD [])]

/-- The `try:` body of `lint_with_pre_commit`, from the `workdir.mkdir`
down to the `return`.  The duration reported in either `LintResponse` is
the difference of the two `time.time()` readings. -/
def lintBody (env : SysEnv) (req : LintArgs) (tmp _cache : String) :
    Except String LintResponse × List Ev :=
  let workdir := tmp ++ "/work"
  let tr0 := [Ev.mkdirWork workdir]
  let src := env.resolve req.repo_path
  if !(env.pathExists src) then
    (Except.error ("repo_path does not exist: " ++ src), tr0)
  else
    let tr1 := tr0 ++ [Ev.copytree src workdir]
    let virtualenv_path :=
      req.relative_virtualenv_path.map (fun r => workdir ++ "/" ++ r)
    let venvPy := findVenvPython env.pathExists virtualenv_path
    let tr2 := tr1 ++ ensureGitEvents env workdir venvPy
    let cfgStep : Option (String × List Ev) :=
      match pyStrOpt req.config_yaml with
      | some y =>
        let cfg := workdir ++ "/.pre-commit-config.override.yaml"
        some (cfg, tr2 ++ [Ev.writeConfig cfg y])
      | none =>
        if env.pathExists (workdir ++ "/.pre-commit-config.yaml") then
          some (workdir ++ "/.pre-commit-config.yaml", tr2)
        else if env.pathExists (workdir ++ "/.pre-commit-config.yml") then
          some (workdir ++ "/.pre-commit-config.yml", tr2)
        else none
    match cfgStep with
    | none =>
      (Except.ok
        { ok := false
          exit_code := 2
          summary := { hooks := [], duration_sec := env.clock 1 - env.clock 0 }
          stdout := ""
          stderr := noConfigMsg }, tr2)
    | some (cfg_path, tr3) =>
      let precommit_cmd := build_base_cmd cfg_path req
      match rewriteCmd venvPy precommit_cmd with
      | none => (Except.error "IndexError", tr3)
      | some cmd =>
        let res := env.run cmd
        let tr4 := tr3 ++ [Ev.runCmd cmd]
        let hooks := parseStdout env res.2.1
        (Except.ok
          { ok := res.1 == 0
            exit_code := res.1
            summary := { hooks := hooks,
                         duration_sec := env.clock 1 - env.clock 0 }
            stdout := res.2.1
            stderr := res.2.2 }, tr4)

/-- Embedding of `lint_with_pre_commit(request)`: create the two temporary directories,
run the body, and unconditionally (`finally:`) remove both directories
with errors ignored. -/
def lint_with_pre_commit (env : SysEnv) (req : LintArgs) :
    Except String LintResponse × List Ev :=
  let tmp := env.tmpName
  let cache := env.cacheName
  let bodyRes := lintBody env req tmp cache
  (bodyRes.1,
   [Ev.mkdtemp tmp, Ev.mkdtemp cache] ++ bodyRes.2 ++
     [Ev.rmtree tmp (env.rmtreeFails tmp),
      Ev.rmtree cache (env.rmtreeFails cache)])

/-! ### Characterisation of the command builder -/

/-- The `--show-diff-on-failure` segment of the built command. -/
def diffSeg (req : LintArgs) : List String :=
  if req.show_diff then ["--show-diff-on-failure"] else []

/-- The positional single-hook segment of the built command. -/
def hookSeg (req : LintArgs) : List String :=
  match req.select_hooks with
  | some [h] => [h]
  | _ => []

/-- The `--all-files` segment of the built command. -/
def allFilesSeg (req : LintArgs) : List String :=
  if req.all_files && !(pyListTruthy req.files_to_check) then ["--all-files"]
  else []

/-- The `--files <files...>` segment of the built command. -/
def filesSeg (req : LintArgs) : List String :=
  match req.files_to_check with
  | some (f :: fs) => "--files" :: f :: fs
  | _ => []

theorem build_base_cmd_eq (cfg : String) (req : LintArgs) :
    build_base_cmd cfg req =
      ["pre-commit", "run", "--config", cfg] ++ diffSeg req ++ hookSeg req ++
        allFilesSeg req ++ filesSeg req := by
  rcases req with ⟨cy, rp, af, ftc, sh, sd, rvp⟩
  cases sd <;> cases af <;>
    rcases sh with _ | ⟨_ | ⟨h, _ | ⟨h2, hs⟩⟩⟩ <;>
    rcases ftc with _ | ⟨_ | ⟨f, fs⟩⟩ <;>
    simp [build_base_cmd, diffSeg, hookSeg, allFilesSeg, filesSeg, pyListTruthy]

/-- C6: for a request with zero selected hook identifiers (absent or empty
list) or with two or more of them, the built command contains no
positional hook filter; for exactly one selected hook identifier, the
built command contains exactly that identifier as a positional filter,
between the diff segment and the file-selection segments. -/
theorem single_hook_filter (cfg : String) (req : LintArgs) :
    ((req.select_hooks = none ∨ req.select_hooks = some [] ∨
        2 ≤ (req.select_hooks.getD []).length) →
      build_base_cmd cfg req =
        ["pre-commit", "run", "--config", cfg] ++ diffSeg req ++
          allFilesSeg req ++ filesSeg req)
    ∧ (∀ h, req.select_hooks = some [h] →
      build_base_cmd cfg req =
        ["pre-commit", "run", "--config", cfg] ++ diffSeg req ++ [h] ++
          allFilesSeg req ++ filesSeg req) := by
  constructor
  · intro hz
    have hseg : hookSeg req = [] := by
      rcases hz with h | h | h
      · simp [hookSeg, h]
      · simp [hookSeg, h]
      · rcases hsel : req.select_hooks with _ | ⟨_ | ⟨a, _ | ⟨b, l⟩⟩⟩ <;>
          simp [hookSeg, hsel] <;> rw [hsel] at h <;> simp at h
    rw [build_base_cmd_eq, hseg]
    simp
  · intro h hone
    have hseg : hookSeg req = [h] := by simp [hookSeg, hone]
    rw [build_base_cmd_eq, hseg]

/-- C6 witness: a two-hook request gets no positional filter, a one-hook
request gets exactly that hook. -/
theorem single_hook_filter_witness :
    build_base_cmd "/cfg"
        { repo_path := "/r", select_hooks := some ["ruff", "black"],
          show_diff := false } =
      ["pre-commit", "run", "--config", "/cfg", "--all-files"]
    ∧ build_base_cmd "/cfg"
        { repo_path := "/r", select_hooks := some ["ruff"],
          show_diff := false } =
      ["pre-commit", "run", "--config", "/cfg", "ruff", "--all-files"] := by
  constructor
  · exact ((single_hook_filter "/cfg"
      { repo_path := "/r", select_hooks := some ["ruff", "black"],
        show_diff := false }).1
      (Or.inr (Or.inr (by decide)))).trans (by decide)
  · exact ((single_hook_filter "/cfg"
      { repo_path := "/r", select_hooks := some ["ruff"],
        show_diff := false }).2 "ruff" rfl).trans (by decide)

/-- C5 counterexample: a request whose (non-empty) explicit file list is
`["--all-files"]` yields a built command that does contain the token
`"--all-files"`, contradicting the claim as stated. -/
theorem files_mode_cex :
    ({ repo_path := "/r", files_to_check := some ["--all-files"],
       show_diff := false } : LintArgs).files_to_check = some ["--all-files"]
    ∧ build_base_cmd "/cfg"
        { repo_path := "/r", files_to_check := some ["--all-files"],
          show_diff := false } =
      ["pre-commit", "run", "--config", "/cfg", "--files", "--all-files"]
    ∧ "--all-files" ∈ build_base_cmd "/cfg"
        { repo_path := "/r", files_to_check := some ["--all-files"],
          show_diff := false } := by
  refine ⟨rfl, by decide, by decide⟩

/-- C5 amended: with a non-empty explicit file list the built command ends
with `--files` followed by exactly the listed files and its `--all-files`
segment is empty, so the token `"--all-files"` occurs only if it is the
config path, the selected hook, or one of the listed files themselves;
and the `--all-files` segment is non-empty exactly when no explicit file
list is given and `all_files` is true. -/
theorem files_mode_amended (cfg : String) (req : LintArgs) (f : String)
    (fs : List String) (hf : req.files_to_check = some (f :: fs)) :
    (build_base_cmd cfg req =
      ["pre-commit", "run", "--config", cfg] ++ diffSeg req ++ hookSeg req ++
        ["--files"] ++ (f :: fs))
    ∧ (cfg ≠ "--all-files" → "--all-files" ∉ hookSeg req →
        "--all-files" ∉ f :: fs → "--all-files" ∉ build_base_cmd cfg req)
    ∧ (∀ (cfg2 : String) (req2 : LintArgs),
        build_base_cmd cfg2 req2 =
          ["pre-commit", "run", "--config", cfg2] ++ diffSeg req2 ++
            hookSeg req2 ++ allFilesSeg req2 ++ filesSeg req2
        ∧ (allFilesSeg req2 = ["--all-files"] ↔
            req2.all_files = true ∧ pyListTruthy req2.files_to_check = false)) := by
  have hall : allFilesSeg req = [] := by
    simp [allFilesSeg, pyListTruthy, hf]
  have hfiles : filesSeg req = "--files" :: f :: fs := by
    simp [filesSeg, hf]
  refine ⟨?_, ?_, ?_⟩
  · rw [build_base_cmd_eq, hall, hfiles]
    simp
  · intro hcfg hhook hfs hmem
    rw [build_base_cmd_eq, hall, hfiles] at hmem
    rcases List.mem_append.mp hmem with h4 | h5
    · rcases List.mem_append.mp h4 with h3 | h0
      · rcases List.mem_append.mp h3 with h2 | hH
        · rcases List.mem_append.mp h2 with hA | hD
          · rcases List.mem_cons.mp hA with h | hA
            · exact absurd h (by decide)
            rcases List.mem_cons.mp hA with h | hA
            · exact absurd h (by decide)
            rcases List.mem_cons.mp hA with h | hA
            · exact absurd h (by decide)
            rcases List.mem_cons.mp hA with h | hA
            · exact hcfg h.symm
            · exact absurd hA (List.not_mem_nil _)
          · by_cases hd : req.show_diff = true
            · simp only [diffSeg, if_pos hd] at hD
              rcases List.mem_cons.mp hD with h | hD
              · exact absurd h (by decide)
              · exact absurd hD (List.not_mem_nil _)
            · simp only [diffSeg, if_neg hd] at hD
              exact absurd hD (List.not_mem_nil _)
        · exact hhook hH
      · exact absurd h0 (List.not_mem_nil _)
    · rcases List.mem_cons.mp h5 with h | h5
      · exact absurd h (by decide)
      · exact hfs h5
  · intro cfg2 req2
    refine ⟨build_base_cmd_eq cfg2 req2, ?_⟩
    constructor
    · intro hseg
      by_cases haf : req2.all_files && !(pyListTruthy req2.files_to_check)
      · rcases Bool.and_eq_true _ _ |>.mp haf with ⟨h1, h2⟩
        exact ⟨h1, by simpa using h2⟩
      · simp [allFilesSeg, haf] at hseg
    · rintro ⟨h1, h2⟩
      simp [allFilesSeg, h1, h2]

/-- C5 witness: the end-to-end file-selection scenario — an explicit file
list `["a.py"]` yields `--files a.py` and no `--all-files`. -/
theorem files_mode_witness :
    build_base_cmd "/w/.pre-commit-config.yaml"
        { repo_path := "/r", files_to_check := some ["a.py"] } =
      ["pre-commit", "run", "--config", "/w/.pre-commit-config.yaml",
       "--show-diff-on-failure", "--files", "a.py"]
    ∧ "--all-files" ∉ build_base_cmd "/w/.pre-commit-config.yaml"
        { repo_path := "/r", files_to_check := some ["a.py"] } := by
  have h := files_mode_amended "/w/.pre-commit-config.yaml"
    { repo_path := "/r", files_to_check := some ["a.py"] } "a.py" [] rfl
  exact ⟨h.1.trans (by decide), h.2.1 (by decide) (by decide) (by decide)⟩

/-- C9 counterexample: with an interpreter found, the two-token vector
`["python", "-m"]` — which is none of the three shapes of the claim, since the
generic shape requires a module name — is rewritten rather than left
unchanged. -/
theorem venv_rewrite_cex :
    findVenvPython (fun p => p == ".venv" || p == ".venv/bin/python")
        (some ".venv") = some ".venv/bin/python"
    ∧ rewriteCmd (some ".venv/bin/python") ["python", "-m"] =
        some [".venv/bin/python", "-m"]
    ∧ ([".venv/bin/python", "-m"] ≠ (["python", "-m"] : List String)) := by
  refine ⟨by decide, by decide, by decide⟩

/-- C9 amended: the interpreter is found exactly as the claim says (two
conventional sub-paths, nothing when unconfigured / missing directory /
missing executable, in which cases the vector is executed unchanged); the
rewrite maps `["pre-commit", ...rest]` and
`["python", "-m", "pre_commit", ...rest]` to
`[venv_python, "-m", "pre_commit", ...rest]`, replaces the head of any
vector starting `["python", "-m", ...]` — two tokens suffice, no module
name is required — by `venv_python`, and leaves every other non-empty
vector unchanged (an empty vector would raise an `IndexError` instead). -/
theorem venv_rewrite_amended :
    (∀ (ex : String → Bool), findVenvPython ex none = none)
    ∧ (∀ (ex : String → Bool) venv, ex venv = false →
        findVenvPython ex (some venv) = none)
    ∧ (∀ (ex : String → Bool) venv, ex venv = true →
        ex (venv ++ "/bin/python") = false →
        ex (venv ++ "/Scripts/python.exe") = false →
        findVenvPython ex (some venv) = none)
    ∧ (∀ (ex : String → Bool) venv, ex venv = true →
        ex (venv ++ "/bin/python") = true →
        findVenvPython ex (some venv) = some (venv ++ "/bin/python"))
    ∧ (∀ (ex : String → Bool) venv, ex venv = true →
        ex (venv ++ "/bin/python") = false →
        ex (venv ++ "/Scripts/python.exe") = true →
        findVenvPython ex (some venv) = some (venv ++ "/Scripts/python.exe"))
    ∧ (∀ cmd, rewriteCmd none cmd = some cmd)
    ∧ (∀ vp rest, rewriteCmd (some vp) ("pre-commit" :: rest) =
        some ([vp, "-m", "pre_commit"] ++ rest))
    ∧ (∀ vp rest, rewriteCmd (some vp) ("python" :: "-m" :: "pre_commit" :: rest) =
        some ([vp, "-m", "pre_commit"] ++ rest))
    ∧ (∀ vp rest, rest.head? ≠ some "pre_commit" →
        rewriteCmd (some vp) ("python" :: "-m" :: rest) =
          some (vp :: "-m" :: rest))
    ∧ (∀ vp c0 rest, c0 ≠ "pre-commit" →
        ¬(c0 = "python" ∧ rest.head? = some "-m") →
        rewriteCmd (some vp) (c0 :: rest) = some (c0 :: rest)) := by
  refine ⟨?_, ?_, ?_, ?_, ?_, ?_, ?_, ?_, ?_, ?_⟩
  · intro ex; rfl
  · intro ex venv h; simp [findVenvPython, h]
  · intro ex venv h1 h2 h3; simp [findVenvPython, h1, h2, h3]
  · intro ex venv h1 h2; simp [findVenvPython, h1, h2]
  · intro ex venv h1 h2 h3; simp [findVenvPython, h1, h2, h3]
  · intro cmd; rfl
  · intro vp rest; simp [rewriteCmd]
  · intro vp rest; simp [rewriteCmd]
  · intro vp rest hhd
    rcases rest with _ | ⟨r, rs⟩
    · simp [rewriteCmd]
    · have hr : r ≠ "pre_commit" := by
        intro h; exact hhd (by simp [h])
      simp [rewriteCmd, hr]
  · intro vp c0 rest hc0 hpm
    rcases rest with _ | ⟨r, rs⟩
    · by_cases hp : c0 = "python"
      · subst hp; simp [rewriteCmd]
      · simp [rewriteCmd, hc0, hp]
    · by_cases hp : c0 = "python"
      · subst hp
        have hr : r ≠ "-m" := fun h => hpm ⟨rfl, by simp [h]⟩
        simp [rewriteCmd, hr]
      · simp [rewriteCmd, hc0, hp]

/-- C9 amended witness: the three rewritten shapes and an untouched
vector, at concrete inputs with a concrete filesystem. -/
theorem venv_rewrite_amended_witness :
    findVenvPython (fun p => p == ".venv" || p == ".venv/bin/python")
        (some ".venv") = some ".venv/bin/python"
    ∧ rewriteCmd (some ".venv/bin/python") ["pre-commit", "run"] =
        some [".venv/bin/python", "-m", "pre_commit", "run"]
    ∧ rewriteCmd (some ".venv/bin/python") ["python", "-m", "pre_commit", "run"] =
        some [".venv/bin/python", "-m", "pre_commit", "run"]
    ∧ rewriteCmd (some ".venv/bin/python") ["python", "-m", "ruff", "check"] =
        some [".venv/bin/python", "-m", "ruff", "check"]
    ∧ rewriteCmd (some ".venv/bin/python") ["git", "init"] = some ["git", "init"] := by
  refine ⟨?_, ?_, ?_, ?_, ?_⟩
  · exact venv_rewrite_amended.2.2.2.1
      (fun p => p == ".venv" || p == ".venv/bin/python") ".venv"
      (by decide) (by decide)
  · exact venv_rewrite_amended.2.2.2.2.2.2.1 ".venv/bin/python" ["run"]
  · exact venv_rewrite_amended.2.2.2.2.2.2.2.1 ".venv/bin/python" ["run"]
  · exact venv_rewrite_amended.2.2.2.2.2.2.2.2.1 ".venv/bin/python"
      ["ruff", "check"] (by decide)
  · exact venv_rewrite_amended.2.2.2.2.2.2.2.2.2 ".venv/bin/python" "git"
      ["init"] (by decide) (by decide)

/-- C7: the line-oriented fallback parser on the example stdout of the spec
yields exactly the two `HookResult` entries, in order; and the status
words are matched case-insensitively. -/
theorem text_fallback_example :
    parse_text_summary
        "black .......................... Passed\nruff ........................... Failed\n" =
      [{ id := some "black", status := HStatus.passed },
       { id := some "ruff", status := HStatus.failed }]
    ∧ parse_text_summary "black .......................... pAsSeD" =
        [{ id := some "black", status := HStatus.passed }]
    ∧ parse_text_summary "ruff ... FAILED" =
        [{ id := some "ruff", status := HStatus.failed }]
    ∧ parse_text_summary "mypy ... skipped" =
        [{ id := some "mypy", status := HStatus.skipped }] := by
  refine ⟨rfl, rfl, rfl, rfl⟩

theorem mapOpt_get {α β : Type} (f : α → Option β) :
    ∀ (l : List α) (res : List β) (i : Nat) (a : α),
      mapOpt f l = some res → l.get? i = some a →
      ∃ b, f a = some b ∧ res.get? i = some b := by
  intro l
  induction l with
  | nil => intro res i a hm hg; simp at hg
  | cons x xs ih =>
    intro res i a hm hg
    rcases hfx : f x with _ | b
    · rw [mapOpt, hfx] at hm; simp at hm
    · rcases hrest : mapOpt f xs with _ | bs
      · rw [mapOpt, hfx, hrest] at hm; simp at hm
      · rw [mapOpt, hfx, hrest] at hm
        simp only [Option.some.injEq] at hm
        cases i with
        | zero =>
          simp only [List.get?] at hg
          obtain rfl : x = a := by injection hg
          exact ⟨b, hfx, by rw [← hm]; rfl⟩
        | succ n =>
          simp only [List.get?] at hg
          obtain ⟨c, hc1, hc2⟩ := ih bs n a hrest hg
          exact ⟨c, hc1, by rw [← hm]; simpa using hc2⟩

/-- C8: a structured payload whose `results` list holds, at position `i`,
a hook record with status field `"passed"` parses (when the structured
stage succeeds) to a `HookResult` at the same position with status exactly
`passed` and `raw` equal to the original record; and any record whose
status field is absent or outside {passed, failed, skipped} yields status
`unknown`. -/
theorem structured_status_roundtrip :
    (∀ (kvs : List (String × Json)) (items : List Json) (hs : List HookResult)
        (i : Nat) (item : Json),
      jLookup "results" kvs = some (Json.arr items) →
      parseStructured (Json.obj kvs) = some hs →
      items.get? i = some item →
      jGet item "status" = some (Json.str "passed") →
      ∃ hr, hs.get? i = some hr ∧ hr.status = HStatus.passed ∧
        hr.raw = some item)
    ∧ (∀ (kvs : List (String × Json)) (hr : HookResult),
      hookOfItem (Json.obj kvs) = some hr →
      (jLookup "status" kvs = none ∨
        ∀ s, jLookup "status" kvs = some (Json.str s) →
          s ≠ "passed" ∧ s ≠ "failed" ∧ s ≠ "skipped") →
      hr.status = HStatus.unknown) := by
  constructor
  · intro kvs items hs i item hres hparse hget hstat
    simp only [parseStructured, hres] at hparse
    obtain ⟨hr, hf, hg⟩ := mapOpt_get hookOfItem items hs i item hparse hget
    rcases item with _ | b | n | s | its | kvs2
    · exact Option.noConfusion hstat
    · exact Option.noConfusion hstat
    · exact Option.noConfusion hstat
    · exact Option.noConfusion hstat
    · exact Option.noConfusion hstat
    simp only [jGet] at hstat
    rw [hookOfItem] at hf
    split at hf
    · obtain rfl : _ = hr := by injection hf
      refine ⟨_, hg, ?_, rfl⟩
      show statusOfJson (jLookup "status" kvs2) = HStatus.passed
      rw [hstat]
      rfl
    · exact Option.noConfusion hf
  · intro kvs hr hf hout
    rw [hookOfItem] at hf
    split at hf
    · obtain rfl : _ = hr := by injection hf
      show statusOfJson (jLookup "status" kvs) = HStatus.unknown
      rcases hout with hnone | hall
      · simp [hnone, statusOfJson]
      · rcases hl : jLookup "status" kvs with _ | v
        · simp [statusOfJson]
        · rcases v with _ | b | n | s | its | kvs2
          · simp [statusOfJson]
          · simp [statusOfJson]
          · simp [statusOfJson]
          · obtain ⟨hp, hfl, hsk⟩ := hall s hl
            simp [statusOfJson, hp, hfl, hsk]
          · simp [statusOfJson]
          · simp [statusOfJson]
    · exact Option.noConfusion hf

/-- C8 witness: a concrete payload with one record of status `"passed"`
round-trips through the structured stage, and a concrete record with no
status field comes out `unknown`. -/
theorem structured_status_roundtrip_witness :
    (∃ hr, ([{ id := some "black", status := HStatus.passed,
               raw := some (Json.obj [("hook_id", Json.str "black"),
                 ("status", Json.str "passed")]) }] : List HookResult).get? 0 =
          some hr
        ∧ hr.status = HStatus.passed
        ∧ hr.raw = some (Json.obj [("hook_id", Json.str "black"),
            ("status", Json.str "passed")]))
    ∧ ({ id := some "x",
         raw := some (Json.obj [("hook_id", Json.str "x")]) } :
          HookResult).status = HStatus.unknown := by
  constructor
  · exact structured_status_roundtrip.1
      [("results", Json.arr [Json.obj [("hook_id", Json.str "black"),
        ("status", Json.str "passed")]])]
      [Json.obj [("hook_id", Json.str "black"), ("status", Json.str "passed")]]
      [{ id := some "black", status := HStatus.passed,
         raw := some (Json.obj [("hook_id", Json.str "black"),
           ("status", Json.str "passed")]) }]
      0
      (Json.obj [("hook_id", Json.str "black"), ("status", Json.str "passed")])
      rfl rfl rfl rfl
  · exact structured_status_roundtrip.2 [("hook_id", Json.str "x")]
      { id := some "x", raw := some (Json.obj [("hook_id", Json.str "x")]) }
      rfl (Or.inl rfl)

/-! ### Orchestrator-level claims -/

/-- A concrete filesystem for witnesses: only `/repo` exists. -/
def fsRepoOnly : String → Bool := fun p => p == "/repo"

/-- A concrete system environment for witnesses. -/
def env1 : SysEnv :=
  { tmpName := "/t", cacheName := "/c", resolve := fun s => s,
    pathExists := fsRepoOnly, run := fun _ => (0, "", ""),
    jsonLoads := fun _ => none, clock := fun _ => 0,
    rmtreeFails := fun _ => false }

/-- A concrete request with no inline override. -/
def req1 : LintArgs := { repo_path := "/repo" }

/-- C1: a request with no inline override whose working copy contains
neither recognised configuration filename gets a structured `LintResponse`
(no exception) with `ok = false`, exit code 2, empty stdout, the fixed
stderr message, an empty hook list, and the measured elapsed duration. -/
theorem config_absence_response (env : SysEnv) (req : LintArgs)
    (hsrc : env.pathExists (env.resolve req.repo_path) = true)
    (hov : pyStrOpt req.config_yaml = none)
    (hyaml : env.pathExists (env.tmpName ++ "/work" ++ "/.pre-commit-config.yaml") = false)
    (hyml : env.pathExists (env.tmpName ++ "/work" ++ "/.pre-commit-config.yml") = false) :
    (lint_with_pre_commit env req).1 =
      Except.ok
        { ok := false, exit_code := 2,
          summary := { hooks := [],
                       duration_sec := env.clock 1 - env.clock 0 },
          stdout := "",
          stderr := "Repository does not have a .pre-commit-config.yaml(.yml) file." } := by
  simp only [lint_with_pre_commit, lintBody, hsrc, hov, hyaml, hyml,
    Bool.not_true, Bool.false_eq_true, if_false, noConfigMsg]

/-- C1 witness: the end-to-end configuration-absence scenario at a
concrete environment. -/
theorem config_absence_response_witness :
    (lint_with_pre_commit env1 req1).1 =
      Except.ok
        { ok := false, exit_code := 2,
          summary := { hooks := [], duration_sec := 0 },
          stdout := "",
          stderr := "Repository does not have a .pre-commit-config.yaml(.yml) file." } := by
  have h := config_absence_response env1 req1 (by decide) rfl (by decide) (by decide)
  exact h

/-- C2 counterexample: for a request whose repository path does not exist
the call does raise a hard precondition error, but only after both
temporary sandbox directories have been created — the trace begins with
the two `mkdtemp` effects, contradicting the claim that the failure is
reported before any sandbox directory is created. -/
theorem precondition_order_cex :
    (lint_with_pre_commit env1 { repo_path := "/nope" }).1 =
      Except.error "repo_path does not exist: /nope"
    ∧ (lint_with_pre_commit env1 { repo_path := "/nope" }).2 =
      [Ev.mkdtemp "/t", Ev.mkdtemp "/c", Ev.mkdirWork "/t/work",
       Ev.rmtree "/t" false, Ev.rmtree "/c" false] := by
  exact ⟨rfl, rfl⟩

/-- C2 amended: a nonexistent repository path makes the call raise a hard
precondition error (the only hard-failure path), raised after the two
temporary directories are created but before any copy, git command, or
lint command runs; both directories are still removed at the end. -/
theorem precondition_hard_error (env : SysEnv) (req : LintArgs)
    (hsrc : env.pathExists (env.resolve req.repo_path) = false) :
    (lint_with_pre_commit env req).1 =
      Except.error ("repo_path does not exist: " ++ env.resolve req.repo_path)
    ∧ (lint_with_pre_commit env req).2 =
      [Ev.mkdtemp env.tmpName, Ev.mkdtemp env.cacheName,
       Ev.mkdirWork (env.tmpName ++ "/work"),
       Ev.rmtree env.tmpName (env.rmtreeFails env.tmpName),
       Ev.rmtree env.cacheName (env.rmtreeFails env.cacheName)] := by
  constructor <;>
    simp only [lint_with_pre_commit, lintBody, hsrc, Bool.not_false, if_true] <;>
    rfl

/-- C2 amended witness: the hard error and the full effect trace at a
concrete environment with a nonexistent path. -/
theorem precondition_hard_error_witness :
    (lint_with_pre_commit env1 { repo_path := "/gone" }).1 =
      Except.error ("repo_path does not exist: " ++ "/gone")
    ∧ (lint_with_pre_commit env1 { repo_path := "/gone" }).2 =
      [Ev.mkdtemp "/t", Ev.mkdtemp "/c", Ev.mkdirWork ("/t" ++ "/work"),
       Ev.rmtree "/t" false, Ev.rmtree "/c" false] := by
  have h := precondition_hard_error env1 { repo_path := "/gone" } (by decide)
  exact h

/-- C3: on every exit path — normal response, structured failure, or the
raised precondition error — the trace ends with the removal of both
temporary directories, and a failure of either removal (suppressed by
`ignore_errors=True`) never changes the returned result. -/
theorem teardown_always (env : SysEnv) (req : LintArgs) :
    (∀ f : String → Bool,
      (lint_with_pre_commit { env with rmtreeFails := f } req).1 =
        (lint_with_pre_commit env req).1)
    ∧ ∃ pre, (lint_with_pre_commit env req).2 =
        pre ++ [Ev.rmtree env.tmpName (env.rmtreeFails env.tmpName),
                Ev.rmtree env.cacheName (env.rmtreeFails env.cacheName)] := by
  constructor
  · intro f; rfl
  · exact ⟨[Ev.mkdtemp env.tmpName, Ev.mkdtemp env.cacheName] ++
      (lintBody env req env.tmpName env.cacheName).2, by
        simp [lint_with_pre_commit]⟩

/-- C3 witness: at a concrete environment (with removal set to fail) the
result is unchanged and the trace ends with both removals. -/
theorem teardown_always_witness :
    (lint_with_pre_commit { env1 with rmtreeFails := fun _ => true } req1).1 =
      (lint_with_pre_commit env1 req1).1
    ∧ ∃ pre, (lint_with_pre_commit env1 req1).2 =
        pre ++ [Ev.rmtree "/t" false, Ev.rmtree "/c" false] := by
  exact ⟨(teardown_always env1 req1).1 (fun _ => true),
    (teardown_always env1 req1).2⟩

theorem rewriteCmd_on_base (v : Option String) (cfg : String) (req : LintArgs) :
    ∃ c, rewriteCmd v (build_base_cmd cfg req) = some c := by
  rcases v with _ | vp
  · exact ⟨_, rfl⟩
  · have h : build_base_cmd cfg req =
        "pre-commit" :: ("run" :: "--config" :: cfg ::
          (diffSeg req ++ hookSeg req ++ allFilesSeg req ++ filesSeg req)) := by
      rw [build_base_cmd_eq]
      simp
    rw [h]
    exact ⟨[vp, "-m", "pre_commit"] ++
      ("run" :: "--config" :: cfg ::
        (diffSeg req ++ hookSeg req ++ allFilesSeg req ++ filesSeg req)), rfl⟩

/-- C4: exactly one configuration source governs the run.  If truthy
inline override text is supplied it is written verbatim to the fresh
override file in the working copy and the executed command is built from
that file, regardless of any on-disk configuration; otherwise the
`.pre-commit-config.yaml` file is used whenever it exists (in particular
when both on-disk names exist), and `.pre-commit-config.yml` is used only
when the `.yaml` variant is absent. -/
theorem config_source_precedence (env : SysEnv) (req : LintArgs)
    (hsrc : env.pathExists (env.resolve req.repo_path) = true) :
    (∀ y, pyStrOpt req.config_yaml = some y →
      Ev.writeConfig (env.tmpName ++ "/work" ++ "/.pre-commit-config.override.yaml") y
          ∈ (lint_with_pre_commit env req).2
      ∧ ∃ c, rewriteCmd
            (findVenvPython env.pathExists
              (req.relative_virtualenv_path.map
                (fun r => env.tmpName ++ "/work" ++ "/" ++ r)))
            (build_base_cmd
              (env.tmpName ++ "/work" ++ "/.pre-commit-config.override.yaml") req) =
          some c
        ∧ Ev.runCmd c ∈ (lint_with_pre_commit env req).2)
    ∧ (pyStrOpt req.config_yaml = none →
      env.pathExists (env.tmpName ++ "/work" ++ "/.pre-commit-config.yaml") = true →
      ∃ c, rewriteCmd
            (findVenvPython env.pathExists
              (req.relative_virtualenv_path.map
                (fun r => env.tmpName ++ "/work" ++ "/" ++ r)))
            (build_base_cmd
              (env.tmpName ++ "/work" ++ "/.pre-commit-config.yaml") req) =
          some c
        ∧ Ev.runCmd c ∈ (lint_with_pre_commit env req).2)
    ∧ (pyStrOpt req.config_yaml = none →
      env.pathExists (env.tmpName ++ "/work" ++ "/.pre-commit-config.yaml") = false →
      env.pathExists (env.tmpName ++ "/work" ++ "/.pre-commit-config.yml") = true →
      ∃ c, rewriteCmd
            (findVenvPython env.pathExists
              (req.relative_virtualenv_path.map
                (fun r => env.tmpName ++ "/work" ++ "/" ++ r)))
            (build_base_cmd
              (env.tmpName ++ "/work" ++ "/.pre-commit-config.yml") req) =
          some c
        ∧ Ev.runCmd c ∈ (lint_with_pre_commit env req).2) := by
  refine ⟨?_, ?_, ?_⟩
  · intro y hy
    obtain ⟨c, hc⟩ := rewriteCmd_on_base
      (findVenvPython env.pathExists
        (req.relative_virtualenv_path.map
          (fun r => env.tmpName ++ "/work" ++ "/" ++ r)))
      (env.tmpName ++ "/work" ++ "/.pre-commit-config.override.yaml") req
    refine ⟨?_, c, hc, ?_⟩ <;>
      simp only [lint_with_pre_commit, lintBody, hsrc, hy, hc,
        Bool.not_true, Bool.false_eq_true, if_false] <;>
      simp [List.mem_append]
  · intro hov hyaml
    obtain ⟨c, hc⟩ := rewriteCmd_on_base
      (findVenvPython env.pathExists
        (req.relative_virtualenv_path.map
          (fun r => env.tmpName ++ "/work" ++ "/" ++ r)))
      (env.tmpName ++ "/work" ++ "/.pre-commit-config.yaml") req
    refine ⟨c, hc, ?_⟩
    simp only [lint_with_pre_commit, lintBody, hsrc, hov, hyaml, hc,
      Bool.not_true, Bool.false_eq_true, if_false, if_true]
    simp [List.mem_append]
  · intro hov hyaml hyml
    obtain ⟨c, hc⟩ := rewriteCmd_on_base
      (findVenvPython env.pathExists
        (req.relative_virtualenv_path.map
          (fun r => env.tmpName ++ "/work" ++ "/" ++ r)))
      (env.tmpName ++ "/work" ++ "/.pre-commit-config.yml") req
    refine ⟨c, hc, ?_⟩
    simp only [lint_with_pre_commit, lintBody, hsrc, hov, hyaml, hyml, hc,
      Bool.not_true, Bool.false_eq_true, if_false, if_true]
    simp [List.mem_append]

/-! ### Dict semantics of the fallback parser (claim C10)

Spec-side helper definitions used only to state the claim: the sequence of
`(hook id, lowered status word)` matches of the stdout, first-occurrence
deduplication, and the status of the last matching line of a given id. -/

/-- The `(group(2), group(3).lower())` pairs of all matching lines, in
line order. -/
def matchedPairs (out : String) : List (String × String) :=
  (pySplitlines out).filterMap lineMatch

/-- Keep the first occurrence of every element, in order. -/
def dedupFirst {α : Type} [DecidableEq α] (l : List α) : List α :=
  l.foldl (fun acc a => if a ∈ acc then acc else acc ++ [a]) []

/-- The status word of the last pair carrying the given hook id. -/
def lastStatus (k : String) : List (String × String) → Option String
  | [] => none
  | p :: ms =>
    match lastStatus k ms with
    | some x => some x
    | none => if p.1 = k then some p.2 else none

/-- One dict assignment for a matched `(id, status)` pair. -/
def pairStep (m : List (String × HookResult)) (p : String × String) :
    List (String × HookResult) :=
  dictInsert m p.1 (mkTextHook p.1 p.2)

/-- First-occurrence lookup in the association list. -/
def alookup (k : String) : List (String × HookResult) → Option HookResult
  | [] => none
  | p :: m => if p.1 = k then some p.2 else alookup k m

theorem foldl_textStep_filterMap :
    ∀ (lines : List String) (acc : List (String × HookResult)),
      lines.foldl textStep acc = (lines.filterMap lineMatch).foldl pairStep acc := by
  intro lines
  induction lines with
  | nil => intro acc; rfl
  | cons l ls ih =>
    intro acc
    rcases hm : lineMatch l with _ | ⟨a, b⟩
    · rw [List.foldl_cons, List.filterMap_cons, hm, textStep, hm, ih]
    · rw [List.foldl_cons, List.filterMap_cons, hm, List.foldl_cons, textStep, hm, ih]
      rfl

theorem map_fst_dictInsert (m : List (String × HookResult)) (k : String)
    (v : HookResult) :
    (dictInsert m k v).map Prod.fst =
      if k ∈ m.map Prod.fst then m.map Prod.fst else m.map Prod.fst ++ [k] := by
  by_cases h : m.any (fun p => decide (p.1 = k)) = true
  · have hmem : k ∈ m.map Prod.fst := by
      rcases List.any_eq_true.mp h with ⟨p, hp, hdec⟩
      exact List.mem_map.mpr ⟨p, hp, by simpa using hdec⟩
    rw [dictInsert, if_pos h, if_pos hmem, List.map_map]
    apply List.map_congr_left
    intro p hp
    by_cases hpk : p.1 = k
    · simp [hpk]
    · simp [hpk]
  · have hmem : k ∉ m.map Prod.fst := by
      intro hk
      rcases List.mem_map.mp hk with ⟨p, hp, hpk⟩
      exact h (List.any_eq_true.mpr ⟨p, hp, by simpa using hpk⟩)
    rw [dictInsert, if_neg h, if_neg hmem]
    simp

theorem map_fst_foldl_pairStep :
    ∀ (ms : List (String × String)) (acc : List (String × HookResult)),
      ((ms.foldl pairStep acc).map Prod.fst) =
        ms.foldl (fun ks p => if p.1 ∈ ks then ks else ks ++ [p.1])
          (acc.map Prod.fst) := by
  intro ms
  induction ms with
  | nil => intro acc; rfl
  | cons p ps ih =>
    intro acc
    rw [List.foldl_cons, List.foldl_cons, ih, pairStep, map_fst_dictInsert]

theorem keys_parse (ms : List (String × String)) :
    ((ms.foldl pairStep []).map Prod.fst) = dedupFirst (ms.map Prod.fst) := by
  rw [map_fst_foldl_pairStep, dedupFirst, List.foldl_map]
  rfl

theorem alookup_mapRepl_self (k : String) (v : HookResult) :
    ∀ m : List (String × HookResult), m.any (fun p => decide (p.1 = k)) = true →
      alookup k (m.map (fun p => if p.1 = k then (k, v) else p)) = some v := by
  intro m
  induction m with
  | nil => intro h; simp at h
  | cons p ps ih =>
    intro h
    by_cases hpk : p.1 = k
    · simp [alookup, hpk]
    · have h2 : ps.any (fun p => decide (p.1 = k)) = true := by
        simp only [List.any_cons, Bool.or_eq_true, decide_eq_true_eq] at h
        rcases h with h | h
        · exact absurd h hpk
        · exact h
      simp [alookup, hpk, ih h2]

theorem alookup_mapRepl_other (k : String) (v : HookResult) (k2 : String)
    (hne : k2 ≠ k) :
    ∀ m : List (String × HookResult),
      alookup k2 (m.map (fun p => if p.1 = k then (k, v) else p)) =
        alookup k2 m := by
  intro m
  induction m with
  | nil => rfl
  | cons p ps ih =>
    have hkk : ¬(k = k2) := fun h => hne h.symm
    by_cases hpk : p.1 = k
    · simp [alookup, hpk, hkk, ih]
    · simp [alookup, hpk, ih]

theorem alookup_append_single_self (k : String) (v : HookResult) :
    ∀ m : List (String × HookResult), m.any (fun p => decide (p.1 = k)) = false →
      alookup k (m ++ [(k, v)]) = some v := by
  intro m
  induction m with
  | nil => intro _; simp [alookup]
  | cons p ps ih =>
    intro h
    simp only [List.any_cons, Bool.or_eq_false_iff] at h
    have hpk : ¬(p.1 = k) := by simpa using h.1
    simp [alookup, hpk, ih h.2]

theorem alookup_append_single_other (k : String) (v : HookResult) (k2 : String)
    (hne : k2 ≠ k) :
    ∀ m : List (String × HookResult),
      alookup k2 (m ++ [(k, v)]) = alookup k2 m := by
  intro m
  induction m with
  | nil =>
    have hkk : ¬(k = k2) := fun h => hne h.symm
    simp [alookup, hkk]
  | cons p ps ih => simp [alookup, ih]

theorem alookup_dictInsert (m : List (String × HookResult)) (k : String)
    (v : HookResult) (k2 : String) :
    alookup k2 (dictInsert m k v) = if k2 = k then some v else alookup k2 m := by
  by_cases hany : m.any (fun p => decide (p.1 = k)) = true
  · rw [dictInsert, if_pos hany]
    by_cases hk : k2 = k
    · rw [if_pos hk, hk, alookup_mapRepl_self k v m hany]
    · rw [if_neg hk, alookup_mapRepl_other k v k2 hk m]
  · have hany2 : m.any (fun p => decide (p.1 = k)) = false :=
      Bool.eq_false_iff.mpr hany
    rw [dictInsert, if_neg hany]
    by_cases hk : k2 = k
    · rw [if_pos hk, hk, alookup_append_single_self k v m hany2]
    · rw [if_neg hk, alookup_append_single_other k v k2 hk m]

theorem values_foldl (k : String) :
    ∀ (ms : List (String × String)) (acc : List (String × HookResult)),
      alookup k (ms.foldl pairStep acc) =
        match lastStatus k ms with
        | some st => some (mkTextHook k st)
        | none => alookup k acc := by
  intro ms
  induction ms with
  | nil => intro acc; rfl
  | cons p ps ih =>
    intro acc
    rw [List.foldl_cons, ih]
    cases h : lastStatus k ps with
    | some x => simp only [lastStatus, h]
    | none =>
      simp only [lastStatus, h]
      rw [pairStep, alookup_dictInsert]
      by_cases hpk : p.1 = k
      · simp [hpk]
      · simp [hpk, Ne.symm hpk]

theorem map_snd_eq_keys_alookup :
    ∀ m : List (String × HookResult), (m.map Prod.fst).Nodup →
      m.map Prod.snd =
        (m.map Prod.fst).map (fun k => (alookup k m).getD (mkTextHook k "")) := by
  intro m
  induction m with
  | nil => intro _; rfl
  | cons p ps ih =>
    intro hnd
    rw [List.map_cons, List.map_cons, List.map_cons]
    have hnotin : p.1 ∉ ps.map Prod.fst := (List.nodup_cons.mp hnd).1
    have hnd2 : (ps.map Prod.fst).Nodup := (List.nodup_cons.mp hnd).2
    congr 1
    · simp [alookup]
    · rw [ih hnd2]
      apply List.map_congr_left
      intro k hk
      have hkp : ¬(p.1 = k) := fun h => hnotin (h ▸ hk)
      simp [alookup, hkp]

theorem dedupFirst_nodup_aux {α : Type} [DecidableEq α] :
    ∀ (l acc : List α), acc.Nodup →
      (l.foldl (fun acc a => if a ∈ acc then acc else acc ++ [a]) acc).Nodup := by
  intro l
  induction l with
  | nil => intro acc h; exact h
  | cons a as ih =>
    intro acc h
    rw [List.foldl_cons]
    apply ih
    by_cases ha : a ∈ acc
    · simpa [ha]
    · simp [ha, List.nodup_append, h]

theorem dedupFirst_nodup {α : Type} [DecidableEq α] (l : List α) :
    (dedupFirst l).Nodup :=
  dedupFirst_nodup_aux l [] (by simp)

theorem mem_dedupFirst_aux {α : Type} [DecidableEq α] :
    ∀ (l acc : List α) (x : α),
      x ∈ l.foldl (fun acc a => if a ∈ acc then acc else acc ++ [a]) acc →
      x ∈ acc ∨ x ∈ l := by
  intro l
  induction l with
  | nil => intro acc x h; exact Or.inl h
  | cons a as ih =>
    intro acc x h
    rw [List.foldl_cons] at h
    rcases ih _ x h with h2 | h2
    · by_cases ha : a ∈ acc
      · rw [if_pos ha] at h2
        exact Or.inl h2
      · rw [if_neg ha] at h2
        rcases List.mem_append.mp h2 with h3 | h3
        · exact Or.inl h3
        · simp only [List.mem_singleton] at h3
          exact Or.inr (by simp [h3])
    · exact Or.inr (List.mem_cons_of_mem a h2)

theorem mem_of_mem_dedupFirst {α : Type} [DecidableEq α] {x : α} {l : List α}
    (h : x ∈ dedupFirst l) : x ∈ l := by
  rcases mem_dedupFirst_aux l [] x h with h2 | h2
  · simp at h2
  · exact h2

theorem lastStatus_isSome_of_mem (k : String) :
    ∀ ms : List (String × String), k ∈ ms.map Prod.fst →
      (lastStatus k ms).isSome := by
  intro ms
  induction ms with
  | nil => intro h; simp at h
  | cons p ps ih =>
    intro h
    cases hl : lastStatus k ps with
    | some x => simp [lastStatus, hl]
    | none =>
      rw [List.map_cons, List.mem_cons] at h
      rcases h with h | h
      · simp [lastStatus, hl, h.symm]
      · have := ih h
        rw [hl] at this
        simp at this

theorem parse_text_summary_eq (out : String) :
    parse_text_summary out =
      (dedupFirst ((matchedPairs out).map Prod.fst)).map
        (fun k => mkTextHook k ((lastStatus k (matchedPairs out)).getD "")) := by
  simp only [matchedPairs]
  rw [parse_text_summary, foldl_textStep_filterMap]
  have hkeys := keys_parse ((pySplitlines out).filterMap lineMatch)
  have hnd : ((((pySplitlines out).filterMap lineMatch).foldl pairStep []).map
      Prod.fst).Nodup := by
    rw [hkeys]; exact dedupFirst_nodup _
  rw [map_snd_eq_keys_alookup _ hnd, hkeys]
  apply List.map_congr_left
  intro k hk
  have hkmem : k ∈ ((pySplitlines out).filterMap lineMatch).map Prod.fst :=
    mem_of_mem_dedupFirst hk
  have hsome := lastStatus_isSome_of_mem k _ hkmem
  rw [values_foldl k _ []]
  cases h : lastStatus k ((pySplitlines out).filterMap lineMatch) with
  | some st => simp [h]
  | none =>
    rw [h] at hsome
    simp at hsome

/-- C10: the fallback parser behaves like an insertion-ordered dict keyed
by hook id — its output is exactly one entry per distinct matched id, in
first-occurrence order, each carrying the status of the last
matching line of that id; hence no duplicate ids and never a status `unknown`. -/
theorem text_dedup_semantics (out : String) :
    (parse_text_summary out =
      (dedupFirst ((matchedPairs out).map Prod.fst)).map
        (fun k => mkTextHook k ((lastStatus k (matchedPairs out)).getD "")))
    ∧ ((parse_text_summary out).map (fun h2 => h2.id) =
        (dedupFirst ((matchedPairs out).map Prod.fst)).map (fun k => some k))
    ∧ ((parse_text_summary out).map (fun h2 => h2.id)).Nodup
    ∧ (∀ h2 ∈ parse_text_summary out, h2.status ≠ HStatus.unknown) := by
  have hmain := parse_text_summary_eq out
  refine ⟨hmain, ?_, ?_, ?_⟩
  · rw [hmain, List.map_map]
    rfl
  · rw [hmain, List.map_map]
    have : ((fun h2 : HookResult => h2.id) ∘
        (fun k => mkTextHook k ((lastStatus k (matchedPairs out)).getD ""))) =
        fun k => some k := rfl
    rw [this]
    exact (dedupFirst_nodup _).map (Option.some_injective String)
  · intro h2 hmem
    rw [hmain] at hmem
    rcases List.mem_map.mp hmem with ⟨k, _, hEq⟩
    rw [← hEq]
    show (if _ = "passed" then HStatus.passed else _) ≠ HStatus.unknown
    split
    · simp
    split
    · simp
    · simp

/-- C10 witness: a stdout where hook `a` matches twice — one entry for
`a`, at its first-occurrence position, carrying its last status. -/
theorem text_dedup_semantics_witness :
    parse_text_summary "a .. Passed\nb .. Failed\na .. Failed" =
      [{ id := some "a", status := HStatus.failed },
       { id := some "b", status := HStatus.failed }]
    ∧ ({ id := some "a", status := HStatus.failed } : HookResult).status ≠
        HStatus.unknown := by
  have h1 : parse_text_summary "a .. Passed\nb .. Failed\na .. Failed" =
      [{ id := some "a", status := HStatus.failed },
       { id := some "b", status := HStatus.failed }] :=
    (text_dedup_semantics "a .. Passed\nb .. Failed\na .. Failed").1.trans rfl
  refine ⟨h1, ?_⟩
  exact (text_dedup_semantics "a .. Passed\nb .. Failed\na .. Failed").2.2.2
    { id := some "a", status := HStatus.failed }
    (by rw [h1]; exact List.mem_cons_self _ _)

/-- A concrete filesystem where `/repo` and both on-disk configuration
filenames of the working copy exist. -/
def env4 : SysEnv :=
  { env1 with
    pathExists := fun p =>
      p == "/repo" || p == "/t/work/.pre-commit-config.yaml" ||
        p == "/t/work/.pre-commit-config.yml" }

/-- C4 witness: with an override supplied the override file is written and
used; without one, and with both on-disk names present, the `.yaml`
variant is the one in the executed command. -/
theorem config_source_precedence_witness :
    Ev.writeConfig ("/t" ++ "/work" ++ "/.pre-commit-config.override.yaml")
        "repos: []"
      ∈ (lint_with_pre_commit env4
          { repo_path := "/repo", config_yaml := some "repos: []" }).2
    ∧ ∃ c, rewriteCmd (findVenvPython env4.pathExists none)
          (build_base_cmd ("/t" ++ "/work" ++ "/.pre-commit-config.yaml") req1) =
        some c
      ∧ Ev.runCmd c ∈ (lint_with_pre_commit env4 req1).2 := by
  constructor
  · exact ((config_source_precedence env4
      { repo_path := "/repo", config_yaml := some "repos: []" }
      (by decide)).1 "repos: []" rfl).1
  · exact (config_source_precedence env4 req1 (by decide)).2.1 rfl (by decide)

/-- C4 counterexample: inline override text IS supplied (`config_yaml` is
the empty string), yet no override file is written — the falsy value falls
through to the on-disk lookup and the executed command uses the on-disk
`.pre-commit-config.yaml`, contradicting the claim that a supplied
override is written to a fresh file and used. -/
theorem config_override_empty_cex :
    ({ repo_path := "/repo", config_yaml := some "" } : LintArgs).config_yaml =
      some ""
    ∧ (lint_with_pre_commit env4
        { repo_path := "/repo", config_yaml := some "" }).2 =
      [Ev.mkdtemp "/t", Ev.mkdtemp "/c", Ev.mkdirWork "/t/work",
       Ev.copytree "/repo" "/t/work",
       Ev.runCmd ["git", "init"], Ev.runCmd ["git", "add", "-A"],
       Ev.runCmd ["git", "commit", "--allow-empty", "-m", "init"],
       Ev.runCmd ["pre-commit", "run", "--config",
         "/t/work/.pre-commit-config.yaml", "--show-diff-on-failure",
         "--all-files"],
       Ev.rmtree "/t" false, Ev.rmtree "/c" false]
    ∧ Ev.writeConfig "/t/work/.pre-commit-config.override.yaml" "" ∉
        (lint_with_pre_commit env4
          { repo_path := "/repo", config_yaml := some "" }).2 := by
  refine ⟨rfl, by decide, by decide⟩

end Precommit
